import Mathlib

/-!
# Verification of the `UdacityMPC` roadmap / MPC formulation header

Shallow embedding of `src/mpc_to_line/src/Ipopt_MPC.h`.

The only functions in the source with bodies are `readRoadmapFromCSV` and
`parseRoadMapLine`; they are embedded below directly from the C++.
All other members (`get_nlp_info`, `get_bounds_info`, `get_starting_point`,
`eval_g`, `eval_jac_g`, `eval_h`, `Solve`, and the derived centerline arrays
`cl_x_` / `cl_y_` / `cl_phi_`) are only declared in the header, with no body
anywhere in the repository; those are modelled from the spec, and each such
definition carries a doc comment starting `Modelled from the spec:`.

Field values are modelled as `FVal`: a finite binary32 value carried as the
exact rational it represents, or one of the non-finite values (infinity of
either sign, NaN) `std::stof` can also produce.  `stofParse` models the full
`strtof` conversion: decimal, hexadecimal, infinity and NaN forms, correct
round-to-nearest-even binary32 rounding of the exact parsed value, and the
`ERANGE`-based `std::out_of_range` throw on overflow and on inexact
underflow (the reporting of underflow is implementation-defined in C; the
model follows glibc, this code's platform, which reports `ERANGE` exactly
when the rounded result is below the least normal and inexact).
-/

set_option maxRecDepth 40000

namespace UdacityMPC

/-! ## Character-level helpers for the `std::stof` model -/

/-- The characters `std::isspace` accepts in the default locale; `strtof`
(hence `std::stof`) skips any run of them before the number. -/
def isSpaceChar (c : Char) : Bool :=
  c = ' ' ∨ c = '\t' ∨ c = '\n' ∨ c = '\x0b' ∨ c = '\x0c' ∨ c = '\r'

/-- Decimal digit test, as `strtof` classifies mantissa/exponent characters. -/
def isDigitChar (c : Char) : Bool :=
  '0' ≤ c ∧ c ≤ '9'

/-- Numeric value of a decimal digit character. -/
def digitVal (c : Char) : ℕ := c.toNat - 48

/-- Value of a list of decimal digit characters read most-significant first. -/
def digitsVal (ds : List Char) : ℕ :=
  ds.foldl (fun a c => 10 * a + digitVal c) 0

/-- Ten to an integer power over `ℚ` (decimal exponent scaling in `strtof`). -/
def pow10 (e : ℤ) : ℚ := (10 : ℚ) ^ e

/-- Read an optional `+`/`-` sign, returning whether the value is negated
and the rest. -/
def readSign : List Char → Bool × List Char
  | '+' :: cs => (false, cs)
  | '-' :: cs => (true, cs)
  | cs => (false, cs)

/-- Split off the maximal run of leading decimal digits. -/
def takeDigits (cs : List Char) : List Char × List Char :=
  (cs.takeWhile isDigitChar, cs.dropWhile isDigitChar)

/-- Read an optional exponent part introduced by one of two marker
characters (`e`/`E` for decimal, `p`/`P` for hexadecimal), with optional
sign and decimal digits.  As in `strtof`, the marker is consumed only when
at least one exponent digit follows; otherwise the input is left untouched
and the exponent is zero. -/
def readExpChar (e1 e2 : Char) (cs : List Char) : ℤ × List Char :=
  match cs with
  | c :: rest =>
    if c = e1 ∨ c = e2 then
      let s := readSign rest
      let d := takeDigits s.2
      if d.1 = [] then (0, cs)
      else (if s.1 then -(digitsVal d.1 : ℤ) else (digitsVal d.1 : ℤ), d.2)
    else (0, cs)
  | [] => (0, cs)

/-- The decimal exponent part `([eE][+-]?digits)`. -/
def readExp (cs : List Char) : ℤ × List Char := readExpChar 'e' 'E' cs

/-- Parse an unsigned decimal mantissa with optional fraction and exponent:
`digits[.digits][exp]` or `.digits[exp]`.  Returns the integer-part digits,
the fraction digits, the decimal exponent, and the unconsumed suffix, or
`none` when no mantissa digit is present (the `strtof` "no conversion"
case).  The hexadecimal, infinity and NaN forms `strtof` also accepts, and
its float range check, are outside this model: fields are plain decimals
valued in `ℚ`. -/
def parseUnsignedDecimal (cs : List Char) :
    Option ((List Char × List Char × ℤ) × List Char) :=
  let ip := takeDigits cs
  let fr : List Char × List Char :=
    match ip.2 with
    | '.' :: rest => takeDigits rest
    | _ => ([], ip.2)
  if ip.1 = [] ∧ fr.1 = [] then none
  else
    let ex := readExp fr.2
    some ((ip.1, fr.1, ex.1), ex.2)

/-- The exact rational value a parsed decimal denotes, from its sign,
integer-part digits, fraction digits and decimal exponent.  Computed with
integer arithmetic and a single `Rat.divInt`; it equals the textbook value
`sign * (ip + fp / 10 ^ fp.length) * 10 ^ ex` (theorem `decValue_eq`). -/
def decValue (sign : ℤ) (ipds fpds : List Char) (ex : ℤ) : ℚ :=
  let m : ℤ :=
    sign * ((digitsVal ipds : ℤ) * (((10 : ℕ) ^ fpds.length : ℕ) : ℤ)
              + (digitsVal fpds : ℤ))
  let e : ℤ := ex - fpds.length
  if 0 ≤ e then Rat.divInt (m * (((10 : ℕ) ^ e.toNat : ℕ) : ℤ)) 1
  else Rat.divInt m (((10 : ℕ) ^ (-e).toNat : ℕ) : ℤ)

/-! ## Hexadecimal, infinity and NaN forms of `strtof` -/

/-- Hexadecimal digit test. -/
def isHexDigitChar (c : Char) : Bool :=
  ('0' ≤ c ∧ c ≤ '9') ∨ ('a' ≤ c ∧ c ≤ 'f') ∨ ('A' ≤ c ∧ c ≤ 'F')

/-- Numeric value of a hexadecimal digit character. -/
def hexDigitVal (c : Char) : ℕ :=
  if 'a' ≤ c ∧ c ≤ 'f' then c.toNat - 87
  else if 'A' ≤ c ∧ c ≤ 'F' then c.toNat - 55
  else c.toNat - 48

/-- Value of a list of hexadecimal digit characters, most significant
first. -/
def hexDigitsVal (ds : List Char) : ℕ :=
  ds.foldl (fun a c => 16 * a + hexDigitVal c) 0

/-- Split off the maximal run of leading hexadecimal digits. -/
def takeHexDigits (cs : List Char) : List Char × List Char :=
  (cs.takeWhile isHexDigitChar, cs.dropWhile isHexDigitChar)

/-- Parse `strtof`'s hexadecimal form after the sign: `0x`/`0X`, a mantissa
of hex digits optionally containing a period (at least one digit overall),
and an optional binary exponent `([pP][+-]?digits)`.  Returns the hex
integer-part digits, hex fraction digits, binary exponent and the
unconsumed suffix; `none` when the input is not of this form (in which case
the decimal parse is attempted — this makes `"0x"` with no hex digit parse
as the decimal `0` with `x…` unconsumed, as `strtof` does). -/
def parseHex (cs : List Char) : Option ((List Char × List Char × ℤ) × List Char) :=
  match cs with
  | '0' :: x :: rest =>
    if x = 'x' ∨ x = 'X' then
      let ip := takeHexDigits rest
      let fr : List Char × List Char :=
        match ip.2 with
        | '.' :: r2 => takeHexDigits r2
        | _ => ([], ip.2)
      if ip.1 = [] ∧ fr.1 = [] then none
      else
        let px := readExpChar 'p' 'P' fr.2
        some ((ip.1, fr.1, px.1), px.2)
    else none
  | _ => none

/-- The exact rational value a parsed hexadecimal literal denotes:
`(ip + fp / 16 ^ fp.length) * 2 ^ bexp`, computed with integer arithmetic
and a single `Rat.divInt`. -/
def hexValue (ipds fpds : List Char) (bexp : ℤ) : ℚ :=
  let m : ℤ := ((hexDigitsVal ipds * ((16 : ℕ) ^ fpds.length : ℕ)
                  + hexDigitsVal fpds : ℕ) : ℤ)
  let e : ℤ := bexp - 4 * fpds.length
  if 0 ≤ e then Rat.divInt (m * (((2 : ℕ) ^ e.toNat : ℕ) : ℤ)) 1
  else Rat.divInt m (((2 : ℕ) ^ (-e).toNat : ℕ) : ℤ)

/-- Case-insensitive character match against a lowercase pattern
character. -/
def lowerEqChar (c p : Char) : Bool :=
  c = p ∨ c.toNat + 32 = p.toNat

/-- Match a lowercase pattern case-insensitively against a prefix of the
input, returning the rest on success. -/
def matchCI : List Char → List Char → Option (List Char)
  | [], cs => some cs
  | _ :: _, [] => none
  | p :: ps, c :: cs => if lowerEqChar c p then matchCI ps cs else none

/-- Characters allowed in a `nan(…)` payload: digits, letters and
underscore. -/
def isNanSeqChar (c : Char) : Bool :=
  ('0' ≤ c ∧ c ≤ '9') ∨ ('a' ≤ c ∧ c ≤ 'z') ∨ ('A' ≤ c ∧ c ≤ 'Z') ∨ c = '_'

/-- The value a converted field denotes: a finite binary32 value carried as
the exact rational it represents, or one of `strtof`'s non-finite results. -/
inductive FVal where
  | fin (q : ℚ)
  | posInf
  | negInf
  | nan
  deriving DecidableEq, Repr

/-- The rational carried by a finite value (0 for the non-finite ones);
used by the derived centerline computations. -/
def FVal.toRat : FVal → ℚ
  | .fin q => q
  | _ => 0

/-- Negate a non-finite conversion result when the field had a `-` sign
(the sign of a NaN is not observable in this model). -/
def applySignNonFinite (neg : Bool) (v : FVal) : FVal :=
  match v with
  | .posInf => if neg then .negInf else .posInf
  | x => x

/-- Parse `strtof`'s infinity and NaN forms after the sign,
case-insensitively: `infinity`, `inf`, and `nan` with an optional
parenthesised payload (the payload is consumed only when its closing
parenthesis is present, as in `strtof`'s longest-valid-prefix rule). -/
def parseInfNan (cs : List Char) : Option (FVal × List Char) :=
  match matchCI ['i','n','f','i','n','i','t','y'] cs with
  | some rest => some (.posInf, rest)
  | none =>
    match matchCI ['i','n','f'] cs with
    | some rest => some (.posInf, rest)
    | none =>
      match matchCI ['n','a','n'] cs with
      | some rest =>
        match rest with
        | '(' :: r2 =>
          match r2.dropWhile isNanSeqChar with
          | ')' :: r3 => some (.nan, r3)
          | _ => some (.nan, rest)
        | _ => some (.nan, rest)
      | none => none

/-! ## Correctly rounded binary32 conversion

`std::stof` returns a `float`: the exact parsed rational is rounded to the
nearest binary32 value (ties to even).  The rounding is computed with
integer arithmetic only.  `std::stof` throws `std::out_of_range` when the
underlying `strtof` reports `ERANGE`: always on overflow (the rounded
magnitude exceeds the largest finite `float`), and — following glibc, the
platform of this code; the C standard leaves underflow reporting
implementation-defined — on inexact underflow (the rounded magnitude is
below the least normal `float` and differs from the exact value). -/

/-- Fuel-driven binary length: `bitLenAux f n` is the number of binary
digits of `n` provided `n ≤ f` (the recursion halves `n` each step, so `n`
itself is always enough fuel). -/
def bitLenAux : ℕ → ℕ → ℕ
  | 0, _ => 0
  | f + 1, n => if n = 0 then 0 else bitLenAux f (n / 2) + 1

/-- Number of binary digits of `n`: the least `b` with `n < 2 ^ b`. -/
def bitLen (n : ℕ) : ℕ := bitLenAux n n

/-- Round the fraction `a / b` (with `b ≠ 0`) to the nearest integer, ties
to even. -/
def roundNearestEven (a b : ℕ) : ℕ :=
  if 2 * (a % b) < b then a / b
  else if b < 2 * (a % b) then a / b + 1
  else if (a / b) % 2 = 0 then a / b else a / b + 1

/-- The numerator of a nonnegative rational scaled by `2 ^ 149`, the
reciprocal of the binary32 subnormal quantum. -/
def scaledMant (v : ℚ) : ℕ := v.num.toNat * 2 ^ 149

/-- How many binary places the rounding quantum of `v` sits above the
subnormal quantum `2 ^ -149`: 0 in the subnormal range, and such that the
rounded mantissa has at most 24 bits in the normal range. -/
def quantShift (v : ℚ) : ℕ := bitLen (scaledMant v / v.den) - 24

/-- Round a nonnegative rational to the binary32 grid (nearest, ties to
even), with the exponent unbounded above: returns the mantissa `m ≤ 2^24`
and quantum exponent `e ≥ -149` with value `m * 2 ^ e`. -/
def roundMantExp (v : ℚ) : ℕ × ℤ :=
  (roundNearestEven (scaledMant v) (v.den * 2 ^ quantShift v),
   -149 + (quantShift v : ℤ))

/-- The rational `±(m * 2 ^ e)`, computed with integer arithmetic and a
single `Rat.divInt`. -/
def qOfMantExp (neg : Bool) (m : ℕ) (e : ℤ) : ℚ :=
  let mz : ℤ := if neg then -(m : ℤ) else (m : ℤ)
  if 0 ≤ e then Rat.divInt (mz * (((2 : ℕ) ^ e.toNat : ℕ) : ℤ)) 1
  else Rat.divInt mz (((2 : ℕ) ^ (-e).toNat : ℕ) : ℤ)

/-- Largest finite binary32 value, `(2^24 - 1) * 2^104`. -/
def fltMax : ℚ := Rat.divInt ((((2 : ℕ) ^ 24 - 1) * 2 ^ 104 : ℕ) : ℤ) 1

/-- Least normal positive binary32 value, `2 ^ -126`. -/
def fltMinNormal : ℚ := Rat.divInt 1 (((2 : ℕ) ^ 126 : ℕ) : ℤ)

/-- The errors `std::stof` turns into exceptions: `std::invalid_argument`
when no conversion can be performed, `std::out_of_range` when `strtof`
reports `ERANGE`. -/
inductive StofError where
  | invalidArgument
  | outOfRange
  deriving DecidableEq, Repr

/-- Correctly rounded binary32 conversion of a magnitude `v ≥ 0` with sign
`neg`: `out_of_range` on overflow and (per glibc) on inexact underflow,
otherwise the represented rational. -/
def roundF32 (neg : Bool) (v : ℚ) : Except StofError ℚ :=
  let me := roundMantExp v
  let q := qOfMantExp false me.1 me.2
  if fltMax < q then Except.error StofError.outOfRange
  else if q < fltMinNormal ∧ q ≠ v then Except.error StofError.outOfRange
  else Except.ok (qOfMantExp neg me.1 me.2)

/-- Model of `std::stof` applied to the characters of a field: skip leading
whitespace, read an optional sign, then one of `strtof`'s forms — infinity
or NaN, a hexadecimal literal, or a decimal literal — returning the
converted value and the unconsumed suffix.  Finite values are rounded to
binary32; `invalid_argument` models the throw when no conversion can be
performed, `out_of_range` the throw on `ERANGE`. -/
def stofParse (cs : List Char) : Except StofError (FVal × List Char) :=
  let cs1 := cs.dropWhile isSpaceChar
  let s := readSign cs1
  match parseInfNan s.2 with
  | some (v, rest) => Except.ok (applySignNonFinite s.1 v, rest)
  | none =>
    match parseHex s.2 with
    | some ((ip, fp, bexp), rest) =>
      (roundF32 s.1 (hexValue ip fp bexp)).map fun q => (FVal.fin q, rest)
    | none =>
      match parseUnsignedDecimal s.2 with
      | some ((ip, fp, ex), rest) =>
        (roundF32 s.1 (decValue 1 ip fp ex)).map fun q => (FVal.fin q, rest)
      | none => Except.error StofError.invalidArgument

/-- The value `std::stof` returns for a field (`Except.error` = throws). -/
def stofQ (cs : List Char) : Except StofError FVal :=
  (stofParse cs).map Prod.fst

/-- Whether `std::stof` converts the field without throwing. -/
def stofOk (cs : List Char) : Bool :=
  (stofParse cs).toOption.isSome

/-- A field is numeric when it is, in its entirety, one decimal number:
optional leading whitespace and sign followed by a decimal literal
consuming the whole field.  This is a purely syntactic notion — it says
nothing about `float` range — matching the spec's "comma-separated numeric
fields". -/
def numericField (cs : List Char) : Bool :=
  match parseUnsignedDecimal ((readSign (cs.dropWhile isSpaceChar)).2) with
  | some (_, []) => true
  | _ => false

/-! ## `std::getline` splitting

`while (std::getline(stream, part, delim))` yields the delimiter-separated
parts of the stream, except that a final empty part produced by a trailing
delimiter is not yielded (the last `getline` extracts no character at EOF and
fails), and an empty stream yields nothing. -/

/-- Split on every occurrence of `d`; always returns at least one part. -/
def splitOnChar (d : Char) : List Char → List (List Char)
  | [] => [[]]
  | c :: cs =>
    if c = d then [] :: splitOnChar d cs
    else
      match splitOnChar d cs with
      | [] => [[c]]
      | p :: ps => (c :: p) :: ps

/-- The successive results of `std::getline(stream, out, d)` on a stream
holding `cs`: delimiter-split parts, dropping the empty part a trailing
delimiter would produce, and no parts at all for an empty stream. -/
def getlineSplit (d : Char) (cs : List Char) : List (List Char) :=
  if cs = [] then []
  else if cs.getLast? = some d then (splitOnChar d cs).dropLast
  else splitOnChar d cs

/-- The lines `readRoadmapFromCSV`'s `while (std::getline(rm_stream, line))`
loop reads from the argument string. -/
def getlines (cs : List Char) : List (List Char) := getlineSplit '\n' cs

/-- The fields `parseRoadMapLine`'s
`while (std::getline(line_stream, number, ','))` loop reads from a line. -/
def splitFields (cs : List Char) : List (List Char) := getlineSplit ',' cs

/-! ## The Roadmap Store (`readRoadmapFromCSV` / `parseRoadMapLine`) -/

/-- The body of `parseRoadMapLine`'s field loop: `std::stof` each field in
order into the local vector `wp`, aborting at the first throwing field (the
escaping exception discards `wp`). -/
def parseFields : List (List Char) → Except StofError (List FVal)
  | [] => Except.ok []
  | f :: fs =>
    match stofQ f with
    | Except.error e => Except.error e
    | Except.ok v =>
      match parseFields fs with
      | Except.error e => Except.error e
      | Except.ok vs => Except.ok (v :: vs)

/--
Embeds the C++ member:
```cpp
void parseRoadMapLine(const std::string& line)
{
    std::istringstream line_stream(line);
    std::string number;
    std::vector<double> wp;
    while (std::getline(line_stream, number, ','))
        wp.push_back(std::stof(number));
    waypoints_.push_back(wp);
}
```
Takes the current `waypoints_` member and the line; returns the new
`waypoints_` and the exception, if one escaped (in which case `waypoints_`
is unchanged — the `push_back` at the end is never reached). -/
def parseRoadMapLine (waypoints : List (List FVal)) (line : List Char) :
    List (List FVal) × Option StofError :=
  match parseFields (splitFields line) with
  | Except.ok wp => (waypoints ++ [wp], none)
  | Except.error e => (waypoints, some e)

/-- The line loop of `readRoadmapFromCSV`: feed each line to
`parseRoadMapLine`; an exception escaping `parseRoadMapLine` also aborts
this loop (nothing catches it), leaving the waypoints appended so far. -/
def readLines : List (List FVal) → List (List Char) → List (List FVal) × Option StofError
  | ws, [] => (ws, none)
  | ws, l :: ls =>
    match parseRoadMapLine ws l with
    | (ws', none) => readLines ws' ls
    | (ws', some e) => (ws', some e)

/--
Embeds the C++ member:
```cpp
void readRoadmapFromCSV(const std::string& roadmap_file_name)
{
    std::istringstream rm_stream(roadmap_file_name);
    std::string line;
    while (std::getline(rm_stream, line))
        parseRoadMapLine(line);
}
```
The argument string itself is wrapped in an `istringstream` and read line by
line; no file is opened. -/
def readRoadmapFromCSV (waypoints : List (List FVal)) (roadmap_file_name : String) :
    List (List FVal) × Option StofError :=
  readLines waypoints (getlines roadmap_file_name.data)

/-- Binary32 representability: `q` is the value of a finite 32-bit float —
a 24-bit-mantissa dyadic rational whose quantum exponent lies in the
binary32 range. -/
def isFloat32 (q : ℚ) : Prop :=
  ∃ m e : ℤ, m.natAbs < 2 ^ 24 ∧ -149 ≤ e ∧ e ≤ 104 ∧ q = (m : ℚ) * (2 : ℚ) ^ e

/-! ## Derived centerline products

The header declares the cached members `cl_x_`, `cl_y_`, `cl_phi_` but the
repository contains no code computing them; they are modelled from the spec
(§4.1: "Derived products — `cl_x`, `cl_y`, `cl_phi` (centerline x, y,
heading) — are computed once from the waypoint sequence (e.g., heading from
consecutive-point deltas)"). -/

/-- Coordinate `i` of a waypoint as a rational (0 when the field is absent
or non-finite; the spec does not define centerlines for non-finite
waypoints). -/
def coordAt (w : List FVal) (i : ℕ) : ℚ :=
  (w.getD i (FVal.fin 0)).toRat

/-- Modelled from the spec: centerline x — the first field of each stored
waypoint, in waypoint order. -/
def cl_x_ (ws : List (List FVal)) : List ℚ :=
  ws.map fun w => coordAt w 0

/-- Modelled from the spec: centerline y — the second field of each stored
waypoint, in waypoint order. -/
def cl_y_ (ws : List (List FVal)) : List ℚ :=
  ws.map fun w => coordAt w 1

/-- Modelled from the spec: centerline heading — one entry per consecutive
pair of waypoints, computed from the pair's coordinate deltas.  The angle
function (`atan2` of the deltas in implementations) is transcendental, so it
is passed in abstractly; only its application to the consecutive deltas is
fixed here. -/
def cl_phi_ (angle : ℚ → ℚ → ℚ) (ws : List (List FVal)) : List ℚ :=
  (ws.zip ws.tail).map fun p =>
    angle (coordAt p.2 0 - coordAt p.1 0) (coordAt p.2 1 - coordAt p.1 1)

/-! ## Problem Formulation (the TNLP callbacks)

The header declares the Ipopt `TNLP` overrides (`get_nlp_info`,
`get_bounds_info`, `get_starting_point`, `eval_f`, `eval_grad_f`, `eval_g`,
`eval_jac_g`, `eval_h`, `finalize_solution`) and the `Solve` entry points,
but the repository contains no bodies for any of them.  They are modelled
from the spec (§3, §4.3, §4.4): the spec leaves the exact discretized
dynamics model and cost open (§9), so the formulation is parametrized by the
one-step discrete model `f`, its partial derivatives `fJac`, the
Hessian-of-Lagrangian entries `lagHess`, and the per-variable bounds. -/

/-- Modelled from the spec (§3): state components x, y, heading, velocity,
cross-track error, heading error. -/
def stateDim : ℕ := 6

/-- Modelled from the spec (§3): actuation components (steering,
acceleration). -/
def actDim : ℕ := 2

/-- Modelled from the spec (§3): per-step stride of the flattened decision
vector — a state block followed by an actuation block. -/
def stride : ℕ := stateDim + actDim

/-- Modelled from the spec: one Problem Formulation instance.  `N` is the
horizon length; `f` is the discretized one-step dynamics model (state,
actuation ↦ next state); `fJac` its partial derivatives with respect to the
step's `stride` decision variables; `lagHess` the Hessian-of-Lagrangian
entry at a (row, column) pair for an iterate, objective factor and
multipliers; `xLower`/`xUpper` the per-variable bounds; `x0` the measured
initial state the instance is created with (§4.4: `Solve` instantiates the
formulation with the current state). -/
structure MPCModel where
  N : ℕ
  f : (ℕ → ℚ) → (ℕ → ℚ) → ℕ → ℚ
  fJac : (ℕ → ℚ) → (ℕ → ℚ) → ℕ → ℕ → ℚ
  lagHess : (ℕ → ℚ) → ℚ → (ℕ → ℚ) → ℕ → ℕ → ℚ
  xLower : ℕ → ℚ
  xUpper : ℕ → ℚ
  x0 : ℕ → ℚ

/-- Modelled from the spec: decision-variable count, `horizon_length ×
stride`. -/
def nVars (M : MPCModel) : ℕ := M.N * stride

/-- Modelled from the spec: constraint count — one dynamics-consistency
residual per state component per horizon transition, followed by the
equality block pinning step 0's state to the measured initial state.  The
total is `stateDim * N`, so the spec's horizon-1 edge case (§4.3: a
length-1 horizon "must still satisfy the same contract", with `m > 0`)
still has `stateDim` constraints. -/
def mCons (M : MPCModel) : ℕ := stateDim * M.N

/-- Component `j` of the predicted state block of step `k` in the flattened
decision vector. -/
def stateAt (x : ℕ → ℚ) (k j : ℕ) : ℚ := x (k * stride + j)

/-- Component `j` of the actuation block of step `k` in the flattened
decision vector. -/
def actAt (x : ℕ → ℚ) (k j : ℕ) : ℚ := x (k * stride + stateDim + j)

/-- Modelled from the spec (§4.3): flat residual entry `r` — state component
`r % stateDim` of the transition from step `r / stateDim`: predicted
next-state minus the dynamics model applied to the current state and
actuation. -/
def gRes (M : MPCModel) (x : ℕ → ℚ) (r : ℕ) : ℚ :=
  stateAt x (r / stateDim + 1) (r % stateDim)
    - M.f (fun j => stateAt x (r / stateDim) j) (fun j => actAt x (r / stateDim) j)
        (r % stateDim)

/-- Flat residual entry `r`: a dynamics-consistency residual for
`r < stateDim * (N - 1)`, then the initial-state equality block — step 0's
state component minus the measured initial state. -/
def gEntry (M : MPCModel) (x : ℕ → ℚ) (r : ℕ) : ℚ :=
  if r < stateDim * (M.N - 1) then gRes M x r
  else stateAt x 0 (r - stateDim * (M.N - 1)) - M.x0 (r - stateDim * (M.N - 1))

/-- Modelled from the spec: `eval_g` — the `m` constraint residuals at an
iterate. -/
def eval_g (M : MPCModel) (x : ℕ → ℚ) : List ℚ :=
  List.ofFn fun i : Fin (mCons M) => gEntry M x i.val

/-- What `get_nlp_info` reports. -/
structure NlpInfo where
  n : ℕ
  m : ℕ
  nnz_jac_g : ℕ
  nnz_h_lag : ℕ
  deriving DecidableEq, Repr

/-- Modelled from the spec (§4.3): the non-zero columns of one Jacobian
row.  A dynamics row `r` has the `stride` variables of the transition's
source step, then the one next-state variable the residual subtracts from;
an initial-state row has its single step-0 state variable. -/
def jacRowPattern (M : MPCModel) (r : ℕ) : List (ℕ × ℕ) :=
  if r < stateDim * (M.N - 1) then
    (List.ofFn fun c : Fin stride => (r, r / stateDim * stride + c.val))
      ++ [(r, (r / stateDim + 1) * stride + r % stateDim)]
  else [(r, r - stateDim * (M.N - 1))]

/-- Modelled from the spec: the Jacobian values of row `r` at an iterate, in
the order of `jacRowPattern`: minus the model's partials on the source-step
block, then `1` for the next-state variable; `1` alone for an initial-state
row. -/
def jacRowVals (M : MPCModel) (x : ℕ → ℚ) (r : ℕ) : List ℚ :=
  if r < stateDim * (M.N - 1) then
    (List.ofFn fun c : Fin stride =>
        -(M.fJac (fun j => stateAt x (r / stateDim) j) (fun j => actAt x (r / stateDim) j)
            (r % stateDim) c.val))
      ++ [1]
  else [1]

/-- Modelled from the spec: the full Jacobian sparsity pattern, row by row. -/
def jacPattern (M : MPCModel) : List (ℕ × ℕ) :=
  (List.range (mCons M)).flatMap (jacRowPattern M)

/-- Modelled from the spec: the full Jacobian values at an iterate, in
`jacPattern` order. -/
def jacVals (M : MPCModel) (x : ℕ → ℚ) : List ℚ :=
  (List.range (mCons M)).flatMap (jacRowVals M x)

/-- Modelled from the spec (§4.3): lower-triangular Hessian-of-Lagrangian
sparsity pattern over `n` variables. -/
def hessPattern (n : ℕ) : List (ℕ × ℕ) :=
  (List.range n).flatMap fun i => (List.range (i + 1)).map fun j => (i, j)

/-- Modelled from the spec: the Hessian-of-Lagrangian values at an iterate,
objective factor and multipliers, in `hessPattern` order. -/
def hessVals (M : MPCModel) (x : ℕ → ℚ) (obj_factor : ℚ) (lam : ℕ → ℚ) : List ℚ :=
  (List.range (nVars M)).flatMap fun i =>
    (List.range (i + 1)).map fun j => M.lagHess x obj_factor lam i j

/-- Modelled from the spec: `get_nlp_info` reports the decision count, the
constraint count and the derivative non-zero counts. -/
def get_nlp_info (M : MPCModel) : NlpInfo :=
  { n := nVars M
    m := mCons M
    nnz_jac_g := (jacPattern M).length
    nnz_h_lag := (hessPattern (nVars M)).length }

/-- What one dual-mode derivative callback returns: the fixed (row, col)
pairs on a structure-only call (`values` pointer null), the numbers on a
values call. -/
inductive DerivReply where
  | pattern (rc : List (ℕ × ℕ))
  | values (v : List ℚ)
  deriving DecidableEq

/-- Modelled from the spec (§4.3): dual-mode `eval_jac_g` — pattern when the
values pointer is null, values at the iterate otherwise. -/
def eval_jac_g (M : MPCModel) (x : ℕ → ℚ) (valuesRequested : Bool) : DerivReply :=
  if valuesRequested then .values (jacVals M x) else .pattern (jacPattern M)

/-- Modelled from the spec (§4.3): dual-mode `eval_h` — pattern when the
values pointer is null, values at the iterate, objective factor and
multipliers otherwise. -/
def eval_h (M : MPCModel) (x : ℕ → ℚ) (obj_factor : ℚ) (lam : ℕ → ℚ)
    (valuesRequested : Bool) : DerivReply :=
  if valuesRequested then .values (hessVals M x obj_factor lam)
  else .pattern (hessPattern (nVars M))

/-- What `get_bounds_info` reports. -/
structure BoundsInfo where
  x_l : List ℚ
  x_u : List ℚ
  g_l : List ℚ
  g_u : List ℚ
  deriving DecidableEq, Repr

/-- Modelled from the spec (§4.3): per-variable bounds from the model, and
the dynamics-consistency constraints encoded as equalities with both bounds
zero. -/
def get_bounds_info (M : MPCModel) : BoundsInfo :=
  { x_l := List.ofFn fun i : Fin (nVars M) => M.xLower i.val
    x_u := List.ofFn fun i : Fin (nVars M) => M.xUpper i.val
    g_l := List.replicate (mCons M) 0
    g_u := List.replicate (mCons M) 0 }

/-- Modelled from the spec (§4.3): cold-start starting point — the measured
state replicated across the horizon with zero actuation. -/
def get_starting_point (M : MPCModel) (x0 : ℕ → ℚ) : List ℚ :=
  (List.range M.N).flatMap fun _ =>
    (List.ofFn fun j : Fin stateDim => x0 j.val) ++ List.replicate actDim 0

/-! ## Solve Driver -/

/-- The error taxonomy entry of spec §7(a) relevant to `Solve`. -/
inductive MPCError where
  | inputMalformed
  deriving DecidableEq, Repr

/-- Modelled from the spec (§4.2): the fixed length of the reference
coefficient vector — a degree-3 polynomial fit. -/
def coeffLen : ℕ := 4

/-- Modelled from the spec (§4.4, §7): `Solve(x0, coeffs)` — a
reference-coefficient vector of unexpected length is an input-malformed
formulation error surfaced immediately, before the external solver is
invoked; otherwise the external solver (passed in abstractly) produces the
returned trajectory.  Invoking the solver only on the well-formed branch is
what makes "solve not attempted" provable: on the error branch the result
cannot depend on the solver at all. -/
def Solve (solver : List ℚ → List ℚ → List ℚ) (x0 coeffs : List ℚ) :
    Except MPCError (List ℚ) :=
  if coeffs.length = coeffLen then Except.ok (solver x0 coeffs)
  else Except.error MPCError.inputMalformed

/-- A concrete Problem Formulation instance used to evaluate the theorems
below on explicit inputs. -/
def exampleModel : MPCModel where
  N := 3
  f := fun s a j => s j + a 0
  fJac := fun _ _ _ _ => 0
  lagHess := fun _ _ _ _ _ => 0
  xLower := fun _ => -1
  xUpper := fun _ => 1
  x0 := fun _ => 0

/-- The spec's horizon-1 edge case (§4.3) as a concrete instance: a
single-step projection that must still satisfy the callback contract. -/
def unitHorizonModel : MPCModel where
  N := 1
  f := fun s a j => s j + a 0
  fJac := fun _ _ _ _ => 0
  lagHess := fun _ _ _ _ _ => 0
  xLower := fun _ => -1
  xUpper := fun _ => 1
  x0 := fun _ => 0

/-! ## Helper lemmas -/

theorem decValue_key (sign : ℤ) (ipds fpds : List Char) (ex : ℤ) :
    decValue sign ipds fpds ex =
      ((sign * ((digitsVal ipds : ℤ) * (((10 : ℕ) ^ fpds.length : ℕ) : ℤ)
          + (digitsVal fpds : ℤ)) : ℤ) : ℚ) * (10 : ℚ) ^ (ex - fpds.length) := by
  unfold decValue
  by_cases he : 0 ≤ ex - (fpds.length : ℤ)
  · rw [if_pos he, Rat.divInt_one]
    push_cast
    rw [← zpow_natCast (10 : ℚ) (ex - (fpds.length : ℤ)).toNat,
      Int.toNat_of_nonneg he]
  · rw [if_neg he, Rat.divInt_eq_div]
    push_cast
    rw [← zpow_natCast (10 : ℚ) (-(ex - (fpds.length : ℤ))).toNat,
      Int.toNat_of_nonneg (by omega : (0 : ℤ) ≤ -(ex - fpds.length)),
      zpow_neg, division_def, inv_inv]

/-- Sanity check for the integer-arithmetic value computation: `decValue`
is the textbook value of the decimal literal,
`sign * (ip + fp / 10 ^ fracLen) * 10 ^ ex`. -/
theorem decValue_eq (sign : ℤ) (ipds fpds : List Char) (ex : ℤ) :
    decValue sign ipds fpds ex =
      (sign : ℚ) *
        ((digitsVal ipds : ℚ) + (digitsVal fpds : ℚ) / (10 : ℚ) ^ fpds.length) *
        pow10 ex := by
  have h10 : (10 : ℚ) ≠ 0 := by norm_num
  rw [decValue_key, pow10, zpow_sub₀ h10, zpow_natCast]
  push_cast
  field_simp

theorem parseFields_eq_error {fs : List (List Char)}
    (h : ∃ f ∈ fs, stofOk f = false) :
    ∃ e, parseFields fs = Except.error e := by
  induction fs with
  | nil => simp at h
  | cons f fs ih =>
    obtain ⟨g, hg, hbad⟩ := h
    rcases List.mem_cons.mp hg with he | hm
    · subst he
      unfold stofOk at hbad
      cases hq : stofParse g with
      | error e =>
        refine ⟨e, ?_⟩
        unfold parseFields stofQ
        rw [hq]
        rfl
      | ok v => rw [hq] at hbad; simp [Except.toOption] at hbad
    · obtain ⟨e, hpe⟩ := ih ⟨g, hm, hbad⟩
      unfold parseFields
      cases hq : stofQ f with
      | error e' => exact ⟨e', rfl⟩
      | ok v => exact ⟨e, by rw [hpe]⟩

theorem parseFields_length : ∀ {fs : List (List Char)} {vs : List FVal},
    parseFields fs = Except.ok vs → vs.length = fs.length := by
  intro fs
  induction fs with
  | nil => intro vs h; simp [parseFields] at h; simp [← h]
  | cons f fs ih =>
    intro vs h
    unfold parseFields at h
    cases hq : stofQ f with
    | error e => rw [hq] at h; exact absurd h (by simp)
    | ok v =>
      rw [hq] at h
      cases hp : parseFields fs with
      | error e => rw [hp] at h; exact absurd h (by simp)
      | ok vs' =>
        rw [hp] at h
        cases h
        simpa using ih hp

theorem readLines_all_ok : ∀ (ls : List (List Char)) (ws : List (List FVal)),
    (∀ l ∈ ls, (parseFields (splitFields l)).toOption.isSome = true) →
    readLines ws ls =
      (ws ++ ls.map fun l => (parseFields (splitFields l)).toOption.getD [], none)
  | [], ws, _ => by simp [readLines]
  | l :: ls, ws, h => by
    obtain ⟨wp, hwp⟩ :=
      Option.isSome_iff_exists.mp (h l (List.mem_cons_self l ls))
    have hok : parseFields (splitFields l) = Except.ok wp := by
      cases hq : parseFields (splitFields l) with
      | error e => rw [hq] at hwp; simp [Except.toOption] at hwp
      | ok v =>
        rw [hq] at hwp
        simp [Except.toOption] at hwp
        rw [hwp]
    have hrest := readLines_all_ok ls (ws ++ [wp])
      (fun l' hl' => h l' (List.mem_cons_of_mem _ hl'))
    simp only [readLines, parseRoadMapLine, hok, hrest, List.map_cons]
    simp [hok, Except.toOption]

theorem length_flatMap_congr {α : Type} {β γ : Type} (l : List α)
    (f : α → List β) (g : α → List γ)
    (h : ∀ a ∈ l, (f a).length = (g a).length) :
    (l.flatMap f).length = (l.flatMap g).length := by
  induction l with
  | nil => rfl
  | cons a l ih =>
    simp only [List.flatMap_cons, List.length_append]
    rw [h a (List.mem_cons_self a l), ih fun b hb => h b (List.mem_cons_of_mem a hb)]

theorem length_flatMap_const {β : Type} (n : ℕ) (blk : List β) :
    ((List.range n).flatMap fun _ => blk).length = n * blk.length := by
  induction n with
  | zero => simp
  | succ n ih =>
    rw [List.range_succ]
    simp [ih, Nat.succ_mul]

theorem exceptToOption_isSome_eq {ε α : Type} {r : Except ε α} {a : α}
    (h : r.toOption = some a) : r = Except.ok a := by
  cases r with
  | error e => simp [Except.toOption] at h
  | ok v => simp [Except.toOption] at h; rw [h]

/-! ## Binary32 rounding facts -/

theorem bitLenAux_spec : ∀ (f n : ℕ), n ≤ f →
    n < 2 ^ bitLenAux f n ∧ (1 ≤ n → 2 ^ (bitLenAux f n - 1) ≤ n) := by
  intro f
  induction f with
  | zero =>
    intro n hn
    have h0 : n = 0 := by omega
    subst h0
    exact ⟨by simp [bitLenAux], by omega⟩
  | succ f ih =>
    intro n hn
    by_cases h0 : n = 0
    · subst h0
      exact ⟨by simp [bitLenAux], by omega⟩
    · have hrec : bitLenAux (f + 1) n = bitLenAux f (n / 2) + 1 := by
        simp [bitLenAux, h0]
      obtain ⟨ih1, ih2⟩ := ih (n / 2) (by omega)
      rw [hrec]
      set b := bitLenAux f (n / 2) with hb
      have hpow : (2 : ℕ) ^ (b + 1) = 2 * 2 ^ b := by rw [pow_succ]; ring
      refine ⟨by omega, fun _ => ?_⟩
      simp only [Nat.add_sub_cancel]
      by_cases h1 : n / 2 = 0
      · have hbz : b = 0 := by
          rw [hb]
          cases f <;> simp [bitLenAux, h1]
        rw [hbz]
        omega
      · have hbpos : 1 ≤ b := by
          rcases Nat.eq_zero_or_pos b with hz | hp
          · rw [hz] at ih1; simp at ih1; omega
          · exact hp
        have hlow := ih2 (by omega)
        have hpow2 : (2 : ℕ) ^ b = 2 * 2 ^ (b - 1) := by
          conv_lhs => rw [show b = b - 1 + 1 by omega]
          rw [pow_succ]; ring
        omega

theorem bitLen_lt (n : ℕ) : n < 2 ^ bitLen n :=
  (bitLenAux_spec n n le_rfl).1

theorem bitLen_low (n : ℕ) (h : 1 ≤ n) : 2 ^ (bitLen n - 1) ≤ n :=
  (bitLenAux_spec n n le_rfl).2 h

theorem bitLen_zero : bitLen 0 = 0 := rfl

theorem roundNearestEven_bounds (a b : ℕ) :
    a / b ≤ roundNearestEven a b ∧ roundNearestEven a b ≤ a / b + 1 := by
  unfold roundNearestEven
  split_ifs <;> omega

theorem roundMantExp_m_le (v : ℚ) : (roundMantExp v).1 ≤ 2 ^ 24 := by
  have hb := roundNearestEven_bounds (scaledMant v) (v.den * 2 ^ quantShift v)
  have hfloor : scaledMant v / (v.den * 2 ^ quantShift v) < 2 ^ 24 := by
    rw [← Nat.div_div_eq_div_mul]
    show scaledMant v / v.den / 2 ^ quantShift v < 2 ^ 24
    unfold quantShift
    set t := scaledMant v / v.den with ht
    by_cases hk : bitLen t ≤ 24
    · have hz : bitLen t - 24 = 0 := by omega
      rw [hz, pow_zero, Nat.div_one]
      calc t < 2 ^ bitLen t := bitLen_lt t
        _ ≤ 2 ^ 24 := Nat.pow_le_pow_right (by norm_num) hk
    · rw [Nat.div_lt_iff_lt_mul (by positivity)]
      calc t < 2 ^ bitLen t := bitLen_lt t
        _ = 2 ^ 24 * 2 ^ (bitLen t - 24) := by
            rw [← pow_add]
            congr 1
            omega
  show roundNearestEven (scaledMant v) (v.den * 2 ^ quantShift v) ≤ 2 ^ 24
  omega

theorem roundMantExp_m_low (v : ℚ) (hk : 1 ≤ quantShift v) :
    2 ^ 23 ≤ (roundMantExp v).1 := by
  have hb := roundNearestEven_bounds (scaledMant v) (v.den * 2 ^ quantShift v)
  have hfloor : 2 ^ 23 ≤ scaledMant v / (v.den * 2 ^ quantShift v) := by
    rw [← Nat.div_div_eq_div_mul]
    have hq : quantShift v = bitLen (scaledMant v / v.den) - 24 := rfl
    set t := scaledMant v / v.den with ht
    have hbl : 25 ≤ bitLen t := by omega
    have ht1 : 1 ≤ t := by
      rcases Nat.eq_zero_or_pos t with hz | hp
      · rw [hz, bitLen_zero] at hbl; omega
      · exact hp
    have hlow := bitLen_low t ht1
    rw [Nat.le_div_iff_mul_le (by positivity)]
    calc 2 ^ 23 * 2 ^ quantShift v = 2 ^ (23 + quantShift v) := by rw [pow_add]
      _ ≤ 2 ^ (bitLen t - 1) := Nat.pow_le_pow_right (by norm_num) (by omega)
      _ ≤ t := hlow
  show 2 ^ 23 ≤ roundNearestEven (scaledMant v) (v.den * 2 ^ quantShift v)
  omega

theorem qOfMantExp_eq (neg : Bool) (m : ℕ) (e : ℤ) :
    qOfMantExp neg m e = (if neg then -(m : ℚ) else (m : ℚ)) * (2 : ℚ) ^ e := by
  unfold qOfMantExp
  cases neg with
  | false =>
    simp only [Bool.false_eq_true, if_false]
    by_cases he : 0 ≤ e
    · rw [if_pos he, Rat.divInt_one]
      push_cast
      rw [← zpow_natCast (2 : ℚ) e.toNat, Int.toNat_of_nonneg he]
    · rw [if_neg he, Rat.divInt_eq_div]
      push_cast
      rw [← zpow_natCast (2 : ℚ) (-e).toNat, Int.toNat_of_nonneg (by omega),
        zpow_neg, division_def, inv_inv]
  | true =>
    simp only [if_true]
    by_cases he : 0 ≤ e
    · rw [if_pos he, Rat.divInt_one]
      push_cast
      rw [← zpow_natCast (2 : ℚ) e.toNat, Int.toNat_of_nonneg he]
    · rw [if_neg he, Rat.divInt_eq_div]
      push_cast
      rw [← zpow_natCast (2 : ℚ) (-e).toNat, Int.toNat_of_nonneg (by omega),
        zpow_neg, division_def, inv_inv]

theorem fltMax_lt_two_pow : fltMax < (2 : ℚ) ^ (128 : ℤ) := by
  unfold fltMax
  rw [Rat.divInt_one, show (128 : ℤ) = ((128 : ℕ) : ℤ) by norm_num,
    zpow_natCast]
  push_cast
  norm_num

theorem fltMax_lt_of_le (a m : ℕ) (e : ℤ) (hm : 2 ^ a ≤ m)
    (he : (128 : ℤ) ≤ (a : ℤ) + e) :
    fltMax < qOfMantExp false m e := by
  have h2 : (2 : ℚ) ^ (128 : ℤ) ≤ (2 : ℚ) ^ ((a : ℤ) + e) :=
    zpow_le_zpow_right₀ (by norm_num) he
  have h3 : (2 : ℚ) ^ ((a : ℤ) + e) = (2 : ℚ) ^ (a : ℕ) * (2 : ℚ) ^ e := by
    rw [zpow_add₀ (by norm_num : (2 : ℚ) ≠ 0), zpow_natCast]
  have h4 : (2 : ℚ) ^ (a : ℕ) * (2 : ℚ) ^ e ≤ (m : ℚ) * (2 : ℚ) ^ e := by
    apply mul_le_mul_of_nonneg_right _ (le_of_lt (zpow_pos (by norm_num) e))
    calc (2 : ℚ) ^ (a : ℕ) = ((2 ^ a : ℕ) : ℚ) := by push_cast; ring
      _ ≤ (m : ℚ) := by exact_mod_cast hm
  rw [qOfMantExp_eq]
  simp only [Bool.false_eq_true, if_false]
  calc fltMax < (2 : ℚ) ^ (128 : ℤ) := fltMax_lt_two_pow
    _ ≤ (2 : ℚ) ^ ((a : ℤ) + e) := h2
    _ = (2 : ℚ) ^ (a : ℕ) * (2 : ℚ) ^ e := h3
    _ ≤ (m : ℚ) * (2 : ℚ) ^ e := h4

theorem roundF32_isFloat32 (neg : Bool) (v q : ℚ)
    (h : roundF32 neg v = Except.ok q) : isFloat32 q := by
  simp only [roundF32] at h
  set m := (roundMantExp v).1 with hm
  set e := (roundMantExp v).2 with he
  by_cases h1 : fltMax < qOfMantExp false m e
  · rw [if_pos h1] at h; exact absurd h (by simp)
  · rw [if_neg h1] at h
    by_cases h2 : qOfMantExp false m e < fltMinNormal ∧ qOfMantExp false m e ≠ v
    · rw [if_pos h2] at h; exact absurd h (by simp)
    · rw [if_neg h2] at h
      have hq : q = qOfMantExp neg m e := by
        have := h
        simp only [Except.ok.injEq] at this
        exact this.symm
      have hmle : m ≤ 2 ^ 24 := by rw [hm]; exact roundMantExp_m_le v
      have he_eq : e = -149 + (quantShift v : ℤ) := by rw [he]; rfl
      rcases Nat.lt_or_ge m (2 ^ 24) with hmlt | hmge
      · have he104 : e ≤ 104 := by
          by_contra hc
          push_neg at hc
          rcases Nat.eq_zero_or_pos (quantShift v) with hz | hpos
          · rw [hz] at he_eq; omega
          · have hml : 2 ^ 23 ≤ m := by rw [hm]; exact roundMantExp_m_low v hpos
            exact h1 (fltMax_lt_of_le 23 m e hml (by omega))
        cases neg with
        | false =>
          refine ⟨(m : ℤ), e, by simpa using hmlt, by omega, he104, ?_⟩
          rw [hq, qOfMantExp_eq]
          simp
        | true =>
          refine ⟨-(m : ℤ), e, by simpa [Int.natAbs_neg] using hmlt, by omega,
            he104, ?_⟩
          rw [hq, qOfMantExp_eq]
          push_cast
          simp
      · have hmeq : m = 2 ^ 24 := le_antisymm hmle hmge
        have he103 : e ≤ 103 := by
          by_contra hc
          push_neg at hc
          exact h1 (fltMax_lt_of_le 24 m e (by omega) (by omega))
        have hsplit : (2 : ℚ) ^ (e + 1) = (2 : ℚ) ^ e * 2 := by
          rw [zpow_add₀ (by norm_num : (2 : ℚ) ≠ 0)]
          norm_num
        cases neg with
        | false =>
          refine ⟨(2 ^ 23 : ℤ), e + 1, by norm_num, by omega, by omega, ?_⟩
          rw [hq, qOfMantExp_eq, hmeq, hsplit]
          simp only [Bool.false_eq_true, if_false]
          push_cast
          ring
        | true =>
          refine ⟨-(2 ^ 23 : ℤ), e + 1, by norm_num, by omega, by omega, ?_⟩
          rw [hq, qOfMantExp_eq, hmeq, hsplit]
          simp only [if_true]
          push_cast
          ring

theorem parseInfNan_nonfin (cs : List Char) (v : FVal) (rest : List Char)
    (h : parseInfNan cs = some (v, rest)) : v = FVal.posInf ∨ v = FVal.nan := by
  unfold parseInfNan at h
  split at h
  · cases h; exact Or.inl rfl
  · split at h
    · cases h; exact Or.inl rfl
    · split at h
      · split at h
        · split at h
          · cases h; exact Or.inr rfl
          · cases h; exact Or.inr rfl
        · cases h; exact Or.inr rfl
      · exact Option.noConfusion h

theorem exceptMap_ok {ε α β : Type} (f : α → β) (r : Except ε α) (b : β)
    (h : r.map f = Except.ok b) : ∃ a, r = Except.ok a ∧ b = f a := by
  cases r with
  | error e => simp [Except.map] at h
  | ok a =>
    refine ⟨a, rfl, ?_⟩
    simp only [Except.map, Except.ok.injEq] at h
    exact h.symm

theorem applySignNonFinite_nonfin (neg : Bool) (v : FVal)
    (hv : v = FVal.posInf ∨ v = FVal.nan) (q : ℚ) :
    applySignNonFinite neg v ≠ FVal.fin q := by
  rcases hv with rfl | rfl <;> cases neg <;> simp [applySignNonFinite]

theorem stofParse_fin_isFloat32 (cs : List Char) (q : ℚ) (rest : List Char)
    (h : stofParse cs = Except.ok (FVal.fin q, rest)) : isFloat32 q := by
  simp only [stofParse] at h
  split at h
  · next v r heq =>
    simp only [Except.ok.injEq, Prod.mk.injEq] at h
    exact absurd h.1 (applySignNonFinite_nonfin _ _ (parseInfNan_nonfin _ _ _ heq) q)
  · split at h
    · next ip fp bexp r heq =>
      obtain ⟨q', hr, hfq⟩ := exceptMap_ok _ _ _ h
      simp only [Prod.mk.injEq, FVal.fin.injEq] at hfq
      rw [hfq.1]
      exact roundF32_isFloat32 _ _ _ hr
    · split at h
      · next ip fp ex r heq =>
        obtain ⟨q', hr, hfq⟩ := exceptMap_ok _ _ _ h
        simp only [Prod.mk.injEq, FVal.fin.injEq] at hfq
        rw [hfq.1]
        exact roundF32_isFloat32 _ _ _ hr
      · exact absurd h (by simp)

theorem parseFields_fin_isFloat32 : ∀ (fs : List (List Char)) (vs : List FVal),
    parseFields fs = Except.ok vs → ∀ q : ℚ, FVal.fin q ∈ vs → isFloat32 q := by
  intro fs
  induction fs with
  | nil =>
    intro vs h q hq
    simp [parseFields] at h
    rw [h] at hq
    simp at hq
  | cons f fs ih =>
    intro vs h q hq
    unfold parseFields at h
    cases hsf : stofQ f with
    | error e => rw [hsf] at h; exact absurd h (by simp)
    | ok v =>
      rw [hsf] at h
      cases hp : parseFields fs with
      | error e => rw [hp] at h; exact absurd h (by simp)
      | ok vs' =>
        rw [hp] at h
        simp only [Except.ok.injEq] at h
        rw [← h] at hq
        rcases List.mem_cons.mp hq with hqv | hqm
        · unfold stofQ at hsf
          obtain ⟨⟨v', r'⟩, hsp, hv⟩ := exceptMap_ok _ _ _ hsf
          have hv' : v' = v := by simpa using hv.symm
          refine stofParse_fin_isFloat32 f q r' ?_
          rw [hsp, hv', ← hqv]
        · exact ih vs' hp q hqm

theorem readLines_fin_isFloat32 : ∀ (ls : List (List Char)) (ws : List (List FVal)),
    (∀ w ∈ ws, ∀ q : ℚ, FVal.fin q ∈ w → isFloat32 q) →
    ∀ w ∈ (readLines ws ls).1, ∀ q : ℚ, FVal.fin q ∈ w → isFloat32 q
  | [], ws, hws => by simpa [readLines] using hws
  | l :: ls, ws, hws => by
    simp only [readLines, parseRoadMapLine]
    cases hp : parseFields (splitFields l) with
    | ok wp =>
      have hws' : ∀ w ∈ ws ++ [wp], ∀ q : ℚ, FVal.fin q ∈ w → isFloat32 q := by
        intro w hw
        rcases List.mem_append.mp hw with h1 | h2
        · exact hws w h1
        · rw [List.mem_singleton.mp h2]
          exact parseFields_fin_isFloat32 _ _ hp
      simpa using readLines_fin_isFloat32 ls (ws ++ [wp]) hws'
    | error e => simpa using hws

/-! ## Claims about the Roadmap Store -/

/-- C1 (counterexample): the record `"1,2a"` contains the field `"2a"`,
which is not numeric, yet ingestion reports no error and appends the
waypoint `[1, 2]`: `std::stof` converts the numeric prefix of a field and
ignores the trailing characters, so a non-numeric field does not always
make the record fail. -/
theorem parseRoadMapLine_accepts_nonnumeric_field :
    numericField "2a".data = false ∧
    parseRoadMapLine [] "1,2a".data = ([[FVal.fin 1, FVal.fin 2]], none) := by
  decide

/-- C1 (amended): for every roadmap record containing a field on which
`std::stof` throws — either no conversion is possible (invalid-argument) or
the converted value is reported out of `float` range (out-of-range, on
overflow and on glibc's inexact underflow) — ingestion of that record fails
with the error of the first throwing field and appends no waypoint: the
waypoint sequence is exactly the one from before the record. -/
theorem parseRoadMapLine_failing_field_fails (waypoints : List (List FVal))
    (line : List Char) (h : ∃ f ∈ splitFields line, stofOk f = false) :
    (parseRoadMapLine waypoints line).1 = waypoints ∧
    (parseRoadMapLine waypoints line).2.isSome = true ∧
    ∀ e, parseFields (splitFields line) = Except.error e →
      parseRoadMapLine waypoints line = (waypoints, some e) := by
  obtain ⟨e, hpe⟩ := parseFields_eq_error h
  refine ⟨by simp [parseRoadMapLine, hpe], by simp [parseRoadMapLine, hpe], ?_⟩
  intro e' hpe'
  simp [parseRoadMapLine, hpe']

/-- C1 (witness): the spec's own example record `"1,a"` fails with the
invalid-argument error and appends nothing. -/
theorem parseRoadMapLine_failing_field_fails_witness :
    (∃ f ∈ splitFields "1,a".data, stofOk f = false) ∧
    (parseRoadMapLine [] "1,a".data).1 = [] ∧
    parseRoadMapLine [] "1,a".data = ([], some StofError.invalidArgument) :=
  ⟨by decide,
   (parseRoadMapLine_failing_field_fails [] "1,a".data (by decide)).1,
   (parseRoadMapLine_failing_field_fails [] "1,a".data (by decide)).2.2
     StofError.invalidArgument (by rfl)⟩

/-- C2 (counterexample): the field `"1e50"` is numeric, but its value
overflows `float` range, so `std::stof` throws `std::out_of_range`: the
roadmap text `"1e50\n2,3"` has all-numeric fields yet ingestion appends no
waypoint for its first record (and, the exception aborting the loop, none
for the later valid record either). -/
theorem readRoadmapFromCSV_rejects_out_of_range_numeric :
    numericField "1e50".data = true ∧
    readRoadmapFromCSV [] "1e50\n2,3" = ([], some StofError.outOfRange) := by
  constructor
  · decide
  · rfl

/-- C2 (amended): when every field of every record converts under
`std::stof` (numeric and within `float` range), ingestion appends exactly
one waypoint per record, in record order, and each appended waypoint has one
value per comma-separated field in field order — nothing is deduplicated or
reordered, the result being the prior sequence followed by the per-record
parses in order. -/
theorem readRoadmapFromCSV_appends_in_order (waypoints : List (List FVal)) (s : String)
    (h : ∀ l ∈ getlines s.data, (parseFields (splitFields l)).toOption.isSome = true) :
    readRoadmapFromCSV waypoints s =
      (waypoints ++
        (getlines s.data).map fun l => (parseFields (splitFields l)).toOption.getD [],
        none) ∧
    ∀ l ∈ getlines s.data,
      ((parseFields (splitFields l)).toOption.getD []).length = (splitFields l).length := by
  refine ⟨readLines_all_ok _ _ h, fun l hl => ?_⟩
  obtain ⟨wp, hwp⟩ := Option.isSome_iff_exists.mp (h l hl)
  have hok := exceptToOption_isSome_eq hwp
  simp [hok, Except.toOption, parseFields_length hok]

/-- C2 (witness): the three records of `"1,2\n1,2\n3,4"` — one of them a
duplicate — produce exactly the three waypoints in record order, duplicate
kept. -/
theorem readRoadmapFromCSV_appends_in_order_witness :
    readRoadmapFromCSV [] "1,2\n1,2\n3,4" =
      ([[FVal.fin 1, FVal.fin 2], [FVal.fin 1, FVal.fin 2], [FVal.fin 3, FVal.fin 4]],
        none) := by
  have h := (readRoadmapFromCSV_appends_in_order [] "1,2\n1,2\n3,4" (by decide)).1
  rw [h]
  decide

/-- C3 (counterexample): the single-field record `"5"` is accepted — the
waypoint `[5]` of length `1 < 2` is appended with no error — so ingestion
does not guarantee every stored waypoint has at least the two fields x
and y. -/
theorem parseRoadMapLine_accepts_short_record :
    parseRoadMapLine [] "5".data = ([[FVal.fin 5]], none) ∧
    ((parseRoadMapLine [] "5".data).1.getD 0 []).length = 1 := by
  decide

/-- C3 (amended): every waypoint stored by ingestion has length equal to the
number of comma-separated fields of its record — no minimum field count is
enforced, so records with fewer than two fields are accepted as well. -/
theorem parseRoadMapLine_append_length_eq_fields (waypoints : List (List FVal))
    (line : List Char) (wp : List FVal)
    (h : parseFields (splitFields line) = Except.ok wp) :
    parseRoadMapLine waypoints line = (waypoints ++ [wp], none) ∧
    wp.length = (splitFields line).length := by
  constructor
  · simp [parseRoadMapLine, h]
  · exact parseFields_length h

/-- C3 (witness): the record `"1,2"` appends exactly `[1, 2]`, whose length
is its field count 2. -/
theorem parseRoadMapLine_append_length_eq_fields_witness :
    parseRoadMapLine [] "1,2".data = ([] ++ [[FVal.fin 1, FVal.fin 2]], none) ∧
    ([FVal.fin 1, FVal.fin 2]).length = (splitFields "1,2".data).length :=
  ⟨(parseRoadMapLine_append_length_eq_fields [] "1,2".data [FVal.fin 1, FVal.fin 2]
      (by rfl)).1,
   (parseRoadMapLine_append_length_eq_fields [] "1,2".data [FVal.fin 1, FVal.fin 2]
      (by rfl)).2⟩

/-- C9: `readRoadmapFromCSV` wraps its argument string in an input string
stream and reads it line by line — it opens no file, so the resulting
waypoint sequence depends only on the characters of the argument string. -/
theorem readRoadmapFromCSV_reads_argument_as_content (waypoints : List (List FVal))
    (s₁ s₂ : String) (h : s₁.data = s₂.data) :
    readRoadmapFromCSV waypoints s₁ = readRoadmapFromCSV waypoints s₂ := by
  unfold readRoadmapFromCSV
  rw [h]

/-- C9 (witness): the argument `"1,2"` is itself parsed as roadmap text —
the waypoint `[1, 2]` comes from the argument's characters, not from any
file contents. -/
theorem readRoadmapFromCSV_reads_argument_as_content_witness :
    ("1,2" : String).data = ("1,2" : String).data ∧
    readRoadmapFromCSV [] "1,2" = readRoadmapFromCSV [] "1,2" ∧
    readRoadmapFromCSV [] "1,2" = ([[FVal.fin 1, FVal.fin 2]], none) :=
  ⟨rfl, readRoadmapFromCSV_reads_argument_as_content [] "1,2" "1,2" rfl, by decide⟩

/-- C10: every numeric field is converted through single-precision float by
`std::stof` before being stored as a double, so every finite stored waypoint
coordinate is exactly representable as a 32-bit float; the stored value is
the input's decimal rounded to float precision, not the full-precision
decimal — ingesting `"0.1"` stores `13421773 / 2^27`, the binary32 value
nearest to 1/10, not 1/10 itself. -/
theorem stored_values_float32 (s : String) :
    (∀ w ∈ (readRoadmapFromCSV [] s).1, ∀ q : ℚ, FVal.fin q ∈ w → isFloat32 q) ∧
    readRoadmapFromCSV [] "0.1" =
      ([[FVal.fin (Rat.divInt 13421773 134217728)]], none) := by
  constructor
  · intro w hw q hq
    exact readLines_fin_isFloat32 (getlines s.data) [] (by simp) w hw q hq
  · decide

/-- C10 (witness): the coordinate stored for the record `"0.1"` is binary32
representable. -/
theorem stored_values_float32_witness :
    isFloat32 (Rat.divInt 13421773 134217728) := by
  have h := stored_values_float32 "0.1"
  refine h.1 [FVal.fin (Rat.divInt 13421773 134217728)] ?_
    (Rat.divInt 13421773 134217728) (List.mem_singleton_self _)
  rw [h.2]
  exact List.mem_singleton_self _

/-! ## Claims about the Problem Formulation and Solve Driver -/

/-- C4: for one Problem Formulation instance the sparse derivative patterns
are fixed — every structure-only call to `eval_jac_g` / `eval_h` returns the
same (row, col) pairs in the same count and order regardless of the iterate,
objective factor or multipliers, and every values call returns a value list
of exactly the pattern's count, generated row by row in the pattern's
order. -/
theorem derivative_structure_fixed (M : MPCModel)
    (x₁ x₂ : ℕ → ℚ) (σ₁ σ₂ : ℚ) (lam₁ lam₂ : ℕ → ℚ) :
    eval_jac_g M x₁ false = DerivReply.pattern (jacPattern M) ∧
    eval_jac_g M x₂ false = eval_jac_g M x₁ false ∧
    eval_h M x₁ σ₁ lam₁ false = DerivReply.pattern (hessPattern (nVars M)) ∧
    eval_h M x₂ σ₂ lam₂ false = eval_h M x₁ σ₁ lam₁ false ∧
    eval_jac_g M x₁ true = DerivReply.values (jacVals M x₁) ∧
    (jacVals M x₁).length = (jacPattern M).length ∧
    eval_h M x₁ σ₁ lam₁ true = DerivReply.values (hessVals M x₁ σ₁ lam₁) ∧
    (hessVals M x₁ σ₁ lam₁).length = (hessPattern (nVars M)).length := by
  refine ⟨rfl, rfl, rfl, rfl, rfl, ?_, rfl, ?_⟩
  · simp only [jacVals, jacPattern]
    exact length_flatMap_congr _ _ _ fun r _ => by
      by_cases hr : r < stateDim * (M.N - 1) <;>
        simp [jacRowVals, jacRowPattern, hr]
  · simp only [hessVals, hessPattern]
    exact length_flatMap_congr _ _ _ fun i _ => by simp

/-- C5: `get_nlp_info` reports `n = horizon_length × stride` and a
constraint count `m`, both positive for every nonempty horizon — including
the spec's horizon-1 edge case, whose initial-state equality block keeps
`m = stateDim > 0` — and these counts agree with the lengths of everything
the bounds, starting-point and residual callbacks return, and with the
derivative pattern sizes. -/
theorem get_nlp_info_consistent (M : MPCModel) (h : 0 < M.N) :
    (get_nlp_info M).n = M.N * stride ∧
    0 < (get_nlp_info M).n ∧
    0 < (get_nlp_info M).m ∧
    (get_bounds_info M).x_l.length = (get_nlp_info M).n ∧
    (get_bounds_info M).x_u.length = (get_nlp_info M).n ∧
    (get_bounds_info M).g_l.length = (get_nlp_info M).m ∧
    (get_bounds_info M).g_u.length = (get_nlp_info M).m ∧
    (∀ x0 : ℕ → ℚ, (get_starting_point M x0).length = (get_nlp_info M).n) ∧
    (∀ x : ℕ → ℚ, (eval_g M x).length = (get_nlp_info M).m) ∧
    (get_nlp_info M).nnz_jac_g = (jacPattern M).length ∧
    (get_nlp_info M).nnz_h_lag = (hessPattern (nVars M)).length := by
  refine ⟨rfl, ?_, ?_, by simp [get_bounds_info, get_nlp_info],
    by simp [get_bounds_info, get_nlp_info],
    by simp [get_bounds_info, get_nlp_info],
    by simp [get_bounds_info, get_nlp_info],
    fun x0 => ?_, fun x => by simp [eval_g, get_nlp_info], rfl, rfl⟩
  · show 0 < nVars M
    unfold nVars stride stateDim actDim
    omega
  · show 0 < mCons M
    unfold mCons stateDim
    omega
  · show (get_starting_point M x0).length = nVars M
    unfold get_starting_point
    rw [length_flatMap_const]
    simp only [List.length_append, List.length_ofFn, List.length_replicate]
    rfl

/-- C5 (witness): the horizon-1 instance — the spec's degenerate edge case —
still satisfies the report; in particular both reported counts are
positive. -/
theorem get_nlp_info_consistent_witness :
    0 < unitHorizonModel.N ∧
    (get_nlp_info unitHorizonModel).n = unitHorizonModel.N * stride ∧
    0 < (get_nlp_info unitHorizonModel).n ∧
    0 < (get_nlp_info unitHorizonModel).m :=
  ⟨by decide, (get_nlp_info_consistent unitHorizonModel (by decide)).1,
   (get_nlp_info_consistent unitHorizonModel (by decide)).2.1,
   (get_nlp_info_consistent unitHorizonModel (by decide)).2.2.1⟩

/-- C6: for every horizon step `k < N - 1` and state component `j`, the
constraint residual `eval_g` places at flat index `stateDim * k + j` equals
the predicted state component at step `k + 1` minus the discretized dynamics
model applied to the state and actuation of step `k`; and `get_bounds_info`
gives every such constraint the equality bounds `g_l = g_u = 0`. -/
theorem eval_g_dynamics_equality (M : MPCModel) (x : ℕ → ℚ) (k j : ℕ)
    (hk : k < M.N - 1) (hj : j < stateDim) :
    (eval_g M x).getD (stateDim * k + j) 0 =
      stateAt x (k + 1) j -
        M.f (fun i => stateAt x k i) (fun i => actAt x k i) j ∧
    (get_bounds_info M).g_l.getD (stateDim * k + j) 0 = 0 ∧
    (get_bounds_info M).g_u.getD (stateDim * k + j) 0 = 0 := by
  have htrans : stateDim * k + j < stateDim * (M.N - 1) := by
    unfold stateDim at hj ⊢
    omega
  have hlt : stateDim * k + j < mCons M := by
    unfold mCons
    unfold stateDim at hj htrans ⊢
    omega
  refine ⟨?_, ?_, ?_⟩
  · have hlen : stateDim * k + j < (eval_g M x).length := by
      simpa [eval_g] using hlt
    rw [List.getD_eq_getElem?_getD, List.getElem?_eq_getElem hlen]
    simp only [eval_g, List.getElem_ofFn, Option.getD_some]
    unfold gEntry
    rw [if_pos htrans]
    unfold gRes
    have hdiv : (stateDim * k + j) / stateDim = k := by
      rw [Nat.mul_add_div (by norm_num [stateDim] : 0 < stateDim),
        Nat.div_eq_of_lt hj, Nat.add_zero]
    have hmod : (stateDim * k + j) % stateDim = j := by
      rw [Nat.mul_add_mod, Nat.mod_eq_of_lt hj]
    rw [hdiv, hmod]
  · simp only [get_bounds_info]
    rw [List.getD_eq_getElem?_getD, List.getElem?_replicate_of_lt hlt,
      Option.getD_some]
  · simp only [get_bounds_info]
    rw [List.getD_eq_getElem?_getD, List.getElem?_replicate_of_lt hlt,
      Option.getD_some]

/-- C6 (witness): in the example instance, residual 0 is the first state
component's dynamics defect between steps 1 and 0, and its bounds are the
equality pair (0, 0). -/
theorem eval_g_dynamics_equality_witness :
    0 < exampleModel.N - 1 ∧
    ((eval_g exampleModel fun _ => (0 : ℚ)).getD (stateDim * 0 + 0) 0 =
      stateAt (fun _ => (0 : ℚ)) (0 + 1) 0 -
        exampleModel.f (fun i => stateAt (fun _ => (0 : ℚ)) 0 i)
          (fun i => actAt (fun _ => (0 : ℚ)) 0 i) 0) ∧
    (get_bounds_info exampleModel).g_l.getD (stateDim * 0 + 0) 0 = 0 :=
  ⟨by decide,
   (eval_g_dynamics_equality exampleModel (fun _ => 0) 0 0 (by decide) (by decide)).1,
   (eval_g_dynamics_equality exampleModel (fun _ => 0) 0 0 (by decide) (by decide)).2.1⟩

/-- C7: a `Solve` call whose reference-coefficient vector does not have the
expected fixed length fails immediately with the input-malformed formulation
error, and no solve is attempted — the outcome is identical whatever
external solver is supplied, so the solver is never consulted. -/
theorem Solve_rejects_wrong_coeff_length
    (solver solver' : List ℚ → List ℚ → List ℚ) (x0 coeffs : List ℚ)
    (h : coeffs.length ≠ coeffLen) :
    Solve solver x0 coeffs = Except.error MPCError.inputMalformed ∧
    Solve solver x0 coeffs = Solve solver' x0 coeffs := by
  unfold Solve
  rw [if_neg h]
  exact ⟨rfl, (if_neg h).symm⟩

/-- C7 (witness): a 3-entry coefficient vector (expected length 4) is
rejected as input-malformed by `Solve`. -/
theorem Solve_rejects_wrong_coeff_length_witness :
    ([(0 : ℚ), 0, 0].length ≠ coeffLen) ∧
    Solve (fun _ _ => []) [] [(0 : ℚ), 0, 0] =
      Except.error MPCError.inputMalformed :=
  ⟨by decide,
   (Solve_rejects_wrong_coeff_length (fun _ _ => []) (fun _ _ => [])
      [] [(0 : ℚ), 0, 0] (by decide)).1⟩

/-- C8: for every ingested roadmap, the centerline arrays `cl_x_` and
`cl_y_` have length equal to the waypoint count, and the derived heading
array `cl_phi_` has length equal to the waypoint count minus one (one
heading per consecutive-point delta), whatever angle function computes each
heading. -/
theorem centerline_lengths (s : String) (angle : ℚ → ℚ → ℚ) :
    (cl_x_ (readRoadmapFromCSV [] s).1).length =
      (readRoadmapFromCSV [] s).1.length ∧
    (cl_y_ (readRoadmapFromCSV [] s).1).length =
      (readRoadmapFromCSV [] s).1.length ∧
    (cl_phi_ angle (readRoadmapFromCSV [] s).1).length =
      (readRoadmapFromCSV [] s).1.length - 1 := by
  refine ⟨by simp [cl_x_], by simp [cl_y_], ?_⟩
  simp only [cl_phi_, List.length_map, List.length_zip, List.length_tail]
  omega

end UdacityMPC
